import Mathlib

/-!
Verification of the backup-rotator core: a shallow embedding of the
rotation engine (`src/rotation_engine.py`), the disk monitor
(`src/disk_monitor.py`), the backup scanner and its timestamp extractor
(`src/backup_scanner.py`) and the persistent state store
(`src/state_manager.py`), together with proofs of the spec's testable
properties about them.
-/

/- ## Calendar model: the fragment of CPython `datetime` used by the program.

The program compares timestamps, asks for `weekday()`, `isocalendar()`,
`year`, `month` and `day`.  We embed the proleptic-Gregorian ordinal
arithmetic CPython uses for these (`_days_before_year`,
`_days_before_month`, `_ymd2ord`, `_isoweek1monday`, `isocalendar`).
Python's `//` is floor division; for the positive divisors used here
Lean's `Int` division (E-rounding) coincides with it.  Microseconds are
omitted: no timestamp handled by the claims carries sub-second data. -/

/-- CPython `datetime._is_leap`: proleptic Gregorian leap-year test. -/
def isLeapYear (y : Int) : Bool :=
  y % 4 == 0 && (y % 100 != 0 || y % 400 == 0)

/-- CPython `datetime._days_before_year`: number of days before January 1 of `y`. -/
def daysBeforeYear (y : Int) : Int :=
  let n := y - 1
  n * 365 + n / 4 - n / 100 + n / 400

/-- CPython `datetime._days_in_month` (month lengths, February by leap year). -/
def daysInMonth (y m : Int) : Int :=
  if m = 2 then (if isLeapYear y then 29 else 28)
  else if m = 4 ∨ m = 6 ∨ m = 9 ∨ m = 11 then 30
  else 31

/-- CPython `datetime._days_before_month`: days in year `y` preceding month `m`
(the `_DAYS_BEFORE_MONTH` table plus the leap-day correction for `m > 2`). -/
def daysBeforeMonth (y m : Int) : Int :=
  (if m = 1 then 0 else if m = 2 then 31 else if m = 3 then 59
   else if m = 4 then 90 else if m = 5 then 120 else if m = 6 then 151
   else if m = 7 then 181 else if m = 8 then 212 else if m = 9 then 243
   else if m = 10 then 273 else if m = 11 then 304 else 334)
  + (if 2 < m ∧ isLeapYear y then 1 else 0)

/-- A CPython `datetime.datetime` value at second granularity. -/
structure PyDatetime where
  year : Int
  month : Int
  day : Int
  hour : Int
  minute : Int
  second : Int
deriving DecidableEq

/-- CPython `datetime._ymd2ord` / `date.toordinal`: proleptic Gregorian ordinal,
with day 1 = January 1 of year 1. -/
def toOrdinal (dt : PyDatetime) : Int :=
  daysBeforeYear dt.year + daysBeforeMonth dt.year dt.month + dt.day

/-- CPython `date.weekday`: `(toordinal + 6) % 7`, Monday = 0. -/
def pyWeekday (dt : PyDatetime) : Int :=
  (toOrdinal dt + 6) % 7

/-- CPython `datetime._isoweek1monday`: ordinal of the Monday starting ISO week 1
of `year` (`THURSDAY = 3`). -/
def isoweek1monday (year : Int) : Int :=
  let firstday := daysBeforeYear year + 1
  let firstweekday := (firstday + 6) % 7
  let week1monday := firstday - firstweekday
  if 3 < firstweekday then week1monday + 7 else week1monday

/-- CPython `date.isocalendar`, restricted to the pair (ISO year, ISO week)
that `RotationEngine._get_calendar_week_key` extracts from it. -/
def isoWeekKey (dt : PyDatetime) : Int × Int :=
  let today := toOrdinal dt
  let week := (today - isoweek1monday dt.year) / 7
  if week < 0 then
    (dt.year - 1, (today - isoweek1monday (dt.year - 1)) / 7 + 1)
  else if 52 ≤ week ∧ isoweek1monday (dt.year + 1) ≤ today then
    (dt.year + 1, 1)
  else
    (dt.year, week + 1)

/- ### Comparison.

CPython `datetime` comparison (`datetime._cmp`) compares the fields
lexicographically; `lexLe`/field lists make that explicit. -/

/-- Lexicographic `≤` on equal-length integer tuples, written on lists;
this is CPython's tuple comparison, which `datetime._cmp` reduces to. -/
def lexLe : List Int → List Int → Bool
  | [], _ => true
  | _ :: _, [] => false
  | a :: as, b :: bs => decide (a < b) || (a == b && lexLe as bs)

/-- The comparison fields of a datetime, most significant first. -/
def PyDatetime.fields (dt : PyDatetime) : List Int :=
  [dt.year, dt.month, dt.day, dt.hour, dt.minute, dt.second]

/-- CPython `datetime.__le__`. -/
def PyDatetime.le (a b : PyDatetime) : Bool :=
  lexLe a.fields b.fields

/-- CPython `datetime.__lt__`; for this total order `a < b` is `¬ (b ≤ a)`. -/
def PyDatetime.lt (a b : PyDatetime) : Bool :=
  !(PyDatetime.le b a)

theorem lexLe_refl (l : List Int) : lexLe l l = true := by
  induction l with
  | nil => rfl
  | cons a as ih => simp [lexLe, ih]

theorem lexLe_total (l₁ l₂ : List Int) : (lexLe l₁ l₂ || lexLe l₂ l₁) = true := by
  induction l₁ generalizing l₂ with
  | nil => simp [lexLe]
  | cons a as ih =>
    cases l₂ with
    | nil => simp [lexLe]
    | cons b bs =>
      simp only [lexLe, Bool.or_eq_true, decide_eq_true_eq, beq_iff_eq,
        Bool.and_eq_true] at *
      rcases lt_trichotomy a b with h | h | h
      · exact Or.inl (Or.inl h)
      · subst h
        rcases ih bs with h' | h'
        · exact Or.inl (Or.inr ⟨rfl, h'⟩)
        · exact Or.inr (Or.inr ⟨rfl, h'⟩)
      · exact Or.inr (Or.inl h)

theorem lexLe_trans {l₁ l₂ l₃ : List Int} (h₁ : lexLe l₁ l₂ = true)
    (h₂ : lexLe l₂ l₃ = true) : lexLe l₁ l₃ = true := by
  induction l₁ generalizing l₂ l₃ with
  | nil => rfl
  | cons a as ih =>
    cases l₂ with
    | nil => simp [lexLe] at h₁
    | cons b bs =>
      cases l₃ with
      | nil => simp [lexLe] at h₂
      | cons c cs =>
        simp only [lexLe, Bool.or_eq_true, decide_eq_true_eq, beq_iff_eq,
          Bool.and_eq_true] at *
        rcases h₁ with h₁ | ⟨rfl, h₁⟩
        · rcases h₂ with h₂ | ⟨rfl, h₂⟩
          · exact Or.inl (h₁.trans h₂)
          · exact Or.inl h₁
        · rcases h₂ with h₂ | ⟨rfl, h₂⟩
          · exact Or.inl h₂
          · exact Or.inr ⟨rfl, ih h₁ h₂⟩

theorem lexLe_antisymm {l₁ l₂ : List Int} (h₁ : lexLe l₁ l₂ = true)
    (h₂ : lexLe l₂ l₁ = true) : l₁ = l₂ := by
  induction l₁ generalizing l₂ with
  | nil =>
    cases l₂ with
    | nil => rfl
    | cons b bs => simp [lexLe] at h₂
  | cons a as ih =>
    cases l₂ with
    | nil => simp [lexLe] at h₁
    | cons b bs =>
      simp only [lexLe, Bool.or_eq_true, decide_eq_true_eq, beq_iff_eq,
        Bool.and_eq_true] at h₁ h₂
      rcases h₁ with h₁ | ⟨rfl, h₁⟩
      · rcases h₂ with h₂ | ⟨h₂, _⟩
        · exact absurd (h₁.trans h₂) (lt_irrefl a)
        · exact absurd h₁ (h₂ ▸ lt_irrefl a)
      · rcases h₂ with h₂ | ⟨_, h₂⟩
        · exact absurd h₂ (lt_irrefl a)
        · rw [ih h₁ h₂]

theorem PyDatetime.fields_inj {a b : PyDatetime} (h : a.fields = b.fields) :
    a = b := by
  cases a; cases b
  simp only [PyDatetime.fields, List.cons.injEq, and_true] at h
  obtain ⟨h1, h2, h3, h4, h5, h6⟩ := h
  simp_all

theorem PyDatetime.le_refl (a : PyDatetime) : PyDatetime.le a a = true :=
  lexLe_refl _

theorem PyDatetime.le_total (a b : PyDatetime) :
    (PyDatetime.le a b || PyDatetime.le b a) = true :=
  lexLe_total _ _

theorem PyDatetime.le_trans {a b c : PyDatetime} (h₁ : PyDatetime.le a b = true)
    (h₂ : PyDatetime.le b c = true) : PyDatetime.le a c = true :=
  lexLe_trans h₁ h₂

theorem PyDatetime.le_antisymm {a b : PyDatetime} (h₁ : PyDatetime.le a b = true)
    (h₂ : PyDatetime.le b a = true) : a = b :=
  PyDatetime.fields_inj (lexLe_antisymm h₁ h₂)

theorem PyDatetime.le_of_not_le {a b : PyDatetime} (h : ¬ PyDatetime.le a b = true) :
    PyDatetime.le b a = true := by
  rcases Bool.or_eq_true _ _ |>.mp (PyDatetime.le_total a b) with h' | h'
  · exact absurd h' h
  · exact h'

/- ## Data model: `BackupFile` (src/backup_scanner.py lines 16-39).

In Python the dataclass hashes and compares by `path` alone; the engine
exploits that by using a `set` of records as a set of paths.  We keep the
record as a plain structure and make every membership test that Python
performs on such a set an explicit test on paths. -/

/-- `BackupFile` (src/backup_scanner.py): a scanned backup record.  Identity
for set membership is by `path` alone (`__hash__`/`__eq__`). -/
structure BackupFile where
  path : String
  filename : String
  timestamp : PyDatetime
  size_bytes : Nat
  project_id : String
deriving DecidableEq

/- ## Rotation engine (src/rotation_engine.py). -/

/-- `RotationEngine._is_monday`: `dt.weekday() == 0`. -/
def is_monday (dt : PyDatetime) : Bool :=
  pyWeekday dt == 0

/-- `RotationEngine._is_first_of_month`: `dt.day == 1`. -/
def is_first_of_month (dt : PyDatetime) : Bool :=
  dt.day == 1

/-- `RotationEngine._get_calendar_month_key`: `(dt.year, dt.month)`. -/
def monthKey (dt : PyDatetime) : Int × Int :=
  (dt.year, dt.month)

/-- Python tuple `≤` on the `(int, int)` calendar keys. -/
def pairLe (a b : Int × Int) : Bool :=
  decide (a.1 < b.1) || (a.1 == b.1 && decide (a.2 ≤ b.2))

/-- The ordering `sorted(backups, key=lambda b: b.timestamp, reverse=True)`
sorts by: `a` may precede `b` when `b`'s timestamp is at most `a`'s. -/
def tsGE (a b : BackupFile) : Prop :=
  PyDatetime.le b.timestamp a.timestamp = true

instance : DecidableRel tsGE := fun _ _ => instDecidableEqBool _ _

instance : IsTotal BackupFile tsGE :=
  ⟨fun a b => by
    rcases Bool.or_eq_true _ _ |>.mp (PyDatetime.le_total b.timestamp a.timestamp)
      with h | h
    · exact Or.inl h
    · exact Or.inr h⟩

instance : IsTrans BackupFile tsGE :=
  ⟨fun _ _ _ h₁ h₂ => PyDatetime.le_trans h₂ h₁⟩

/-- `sorted(backups, key=lambda b: b.timestamp, reverse=True)` (line 93):
Python's sort is stable, and a stable sort with respect to a total preorder
has a unique result, so the stable `insertionSort` produces the identical
list. -/
def sortDescByTimestamp (backups : List BackupFile) : List BackupFile :=
  backups.insertionSort tsGE

/-- Python `max(first :: rest, key=lambda b: b.timestamp)`: the first element
whose timestamp no later element strictly exceeds (ties keep the earlier
element, as `max` only replaces on a strictly greater key). -/
def pyMaxByTimestamp (first : BackupFile) (rest : List BackupFile) : BackupFile :=
  rest.foldl
    (fun acc x => if PyDatetime.lt acc.timestamp x.timestamp then x else acc)
    first

/-- The weekly bucket of week key `k`: the records of `sorted_backups` whose
ISO (year, week) key is `k`, in sorted order (lines 104-107; `defaultdict`
buckets are filled by iterating `sorted_backups`). -/
def weekBucket (sorted_backups : List BackupFile) (k : Int × Int) : List BackupFile :=
  sorted_backups.filter (fun b => decide (isoWeekKey b.timestamp = k))

/-- Lines 112-122: the record the weekly tier keeps for week `k` — the newest
Monday record of the week if the week has one, otherwise the newest record of
the week; `none` when the bucket is empty (never reached for a real key). -/
def weeklyPick (sorted_backups : List BackupFile) (k : Int × Int) : Option BackupFile :=
  let bucket := weekBucket sorted_backups k
  match bucket.filter (fun b => is_monday b.timestamp) with
  | m :: ms => some (pyMaxByTimestamp m ms)
  | [] =>
    match bucket with
    | b :: bs => some (pyMaxByTimestamp b bs)
    | [] => none

/-- The monthly bucket of month key `k` (lines 129-132). -/
def monthBucket (sorted_backups : List BackupFile) (k : Int × Int) : List BackupFile :=
  sorted_backups.filter (fun b => decide (monthKey b.timestamp = k))

/-- Lines 139-151: the record the monthly tier keeps for month `k` — the newest
first-of-month record if the month has one, otherwise the newest record. -/
def monthlyPick (sorted_backups : List BackupFile) (k : Int × Int) : Option BackupFile :=
  let bucket := monthBucket sorted_backups k
  match bucket.filter (fun b => is_first_of_month b.timestamp) with
  | m :: ms => some (pyMaxByTimestamp m ms)
  | [] =>
    match bucket with
    | b :: bs => some (pyMaxByTimestamp b bs)
    | [] => none

/-- Descending Python tuple order on calendar keys, as a relation for
sorting: `a` may precede `b` when `b ≤ a`. -/
def keyGE (a b : Int × Int) : Prop :=
  pairLe b a = true

instance : DecidableRel keyGE := fun _ _ => instDecidableEqBool _ _

/-- Line 110: `sorted(weekly_buckets.keys(), reverse=True)[:weekly_count]` —
the `weekly_count` most recent distinct ISO week keys, descending (the
distinct keys sorted, their dict insertion order being irrelevant to the
strictly ordered result). -/
def selectedWeekKeys (sorted_backups : List BackupFile) (weekly_count : Nat) :
    List (Int × Int) :=
  (((sorted_backups.map (fun b => isoWeekKey b.timestamp)).dedup).insertionSort
    keyGE).take weekly_count

/-- Lines 135-137: the `monthly_count` most recent distinct month keys. -/
def selectedMonthKeys (sorted_backups : List BackupFile) (monthly_count : Nat) :
    List (Int × Int) :=
  (((sorted_backups.map (fun b => monthKey b.timestamp)).dedup).insertionSort
    keyGE).take monthly_count

/-- The paths the daily tier keeps: `sorted_backups[:daily_count]` (line 99). -/
def dailyKeepPaths (sorted_backups : List BackupFile) (daily_count : Nat) :
    List String :=
  (sorted_backups.take daily_count).map (·.path)

/-- The paths the weekly tier keeps (lines 112-122). -/
def weeklyKeepPaths (sorted_backups : List BackupFile) (weekly_count : Nat) :
    List String :=
  ((selectedWeekKeys sorted_backups weekly_count).filterMap
    (weeklyPick sorted_backups)).map (·.path)

/-- The paths the monthly tier keeps (lines 139-151). -/
def monthlyKeepPaths (sorted_backups : List BackupFile) (monthly_count : Nat) :
    List String :=
  ((selectedMonthKeys sorted_backups monthly_count).filterMap
    (monthlyPick sorted_backups)).map (·.path)

/-- `RotationEngine.calculate_deletions` (lines 75-162).  `keep_backups` is a
Python `set` of records hashed and compared by path, so it is embedded as the
list of kept paths; the final list comprehension (line 156) keeps the records
of `sorted_backups` whose path is not in that set. -/
def calculate_deletions (daily_count weekly_count monthly_count : Nat)
    (backups : List BackupFile) : List BackupFile :=
  if backups = [] then []
  else
    let sorted_backups := sortDescByTimestamp backups
    let keep_paths :=
      dailyKeepPaths sorted_backups daily_count
        ++ weeklyKeepPaths sorted_backups weekly_count
        ++ monthlyKeepPaths sorted_backups monthly_count
    sorted_backups.filter (fun b => !(decide (b.path ∈ keep_paths)))

/- ## Disk monitor (src/disk_monitor.py).

The monitor samples the filesystem through `self.path.exists()` and
`shutil.disk_usage`; the embedding passes that one sample in explicitly:
`path_exists` is the `exists()` answer and `raw` is the `disk_usage`
result, with `none` standing for the `OSError` the call can raise.
Percentages are Python floats; they are embedded as exact rationals. -/

/-- The result of `shutil.disk_usage`: total, used and free bytes. -/
structure DiskUsageRaw where
  total : Nat
  used : Nat
  free : Nat
deriving DecidableEq

/-- `DiskMonitor.__init__` (lines 13-24): stores the two thresholds and
derives `resolution_threshold_percent = threshold + margin`. -/
structure DiskMonitor where
  threshold_percent : Rat
  margin_percent : Rat
  resolution_threshold_percent : Rat
deriving DecidableEq

/-- `DiskMonitor(path, threshold_percent, margin_percent)`. -/
def mkDiskMonitor (threshold_percent margin_percent : Rat) : DiskMonitor :=
  ⟨threshold_percent, margin_percent, threshold_percent + margin_percent⟩

/-- `DiskMonitor.get_disk_usage` (lines 26-46): `none` where the Python
raises — missing path (`FileNotFoundError`), failed usage query (`OSError`),
or a zero total making `free / total` raise `ZeroDivisionError`.  Otherwise
`(free_percent, free_gb, used_gb, total_gb)`. -/
def get_disk_usage (path_exists : Bool) (raw : Option DiskUsageRaw) :
    Option (Rat × Rat × Rat × Rat) :=
  if !path_exists then none
  else
    match raw with
    | none => none
    | some u =>
      if u.total = 0 then none
      else
        some ((u.free : Rat) / (u.total : Rat) * 100,
              (u.free : Rat) / 1024 ^ 3,
              (u.used : Rat) / 1024 ^ 3,
              (u.total : Rat) / 1024 ^ 3)

/-- `DiskMonitor.should_alert` (lines 48-72): on a successful reading the
flag is `free_percent < threshold_percent`; any exception is caught and
yields `(False, 0.0, 0.0, 0.0)`. -/
def should_alert (m : DiskMonitor) (path_exists : Bool) (raw : Option DiskUsageRaw) :
    Bool × Rat × Rat × Rat :=
  match get_disk_usage path_exists raw with
  | some (free_percent, free_gb, _used_gb, total_gb) =>
    (decide (free_percent < m.threshold_percent), free_percent, free_gb, total_gb)
  | none => (false, 0, 0, 0)

/-- `DiskMonitor.is_resolved` (lines 74-95): on a successful reading,
`free_percent > resolution_threshold_percent`; any exception yields `False`. -/
def is_resolved (m : DiskMonitor) (path_exists : Bool) (raw : Option DiskUsageRaw) :
    Bool :=
  match get_disk_usage path_exists raw with
  | some (free_percent, _, _, _) =>
    decide (m.resolution_threshold_percent < free_percent)
  | none => false

/- ## Persistent state store (src/state_manager.py).

`projects` is a Python `dict[str, ProjectState]`, embedded as an
association list in insertion order.  The persisted form is the
`state_dict` that `save_state` hands to `json.dump` and `_load_state`
reads back; the JSON byte encoding between those two dictionaries is the
standard library's and is not re-modelled.  `datetime.now().isoformat()`
stamps are passed in as explicit `now_iso` arguments. -/

/-- `ProjectState` (src/state_manager.py lines 14-21). -/
structure ProjectState where
  project_id : String
  last_deletion_timestamp : Option String
  deleted_files_count : Nat
  deleted_files_size_bytes : Nat
deriving DecidableEq

/-- A fresh `ProjectState(project_id=...)` with default counters. -/
def ProjectState.new (pid : String) : ProjectState :=
  ⟨pid, none, 0, 0⟩

/-- `GlobalState` (lines 29-35). -/
structure GlobalState where
  last_weekly_report_timestamp : Option String
  disk_alert_last_sent_date : Option String
  projects : List (String × ProjectState)
deriving DecidableEq

/-- `GlobalState()` with all defaults. -/
def GlobalState.empty : GlobalState :=
  ⟨none, none, []⟩

/-- Replace the value stored under `pid` (mutating the dict entry in place). -/
def setProject (projects : List (String × ProjectState)) (pid : String)
    (ps : ProjectState) : List (String × ProjectState) :=
  projects.map (fun e => if e.1 = pid then (pid, ps) else e)

/-- `GlobalState.get_project_state` (lines 37-41): get or create.  Returns the
project state together with the possibly-extended global state (a Python dict
inserts at the end). -/
def GlobalState.get_project_state (s : GlobalState) (pid : String) :
    ProjectState × GlobalState :=
  match s.projects.lookup pid with
  | some ps => (ps, s)
  | none =>
    (ProjectState.new pid,
     { s with projects := s.projects ++ [(pid, ProjectState.new pid)] })

/-- `GlobalState.record_deletion` (lines 61-66): increments the project's
count, adds the file size to its byte total and stamps the deletion time. -/
def GlobalState.record_deletion (s : GlobalState) (pid : String)
    (file_size_bytes : Nat) (now_iso : String) : GlobalState :=
  let (ps, s') := s.get_project_state pid
  { s' with
    projects := setProject s'.projects pid
      { ps with
        deleted_files_count := ps.deleted_files_count + 1,
        deleted_files_size_bytes := ps.deleted_files_size_bytes + file_size_bytes,
        last_deletion_timestamp := some now_iso } }

/-- The dictionary `StateManager.save_state` builds (lines 126-132): the two
global fields plus `asdict(ProjectState)` per project. -/
structure PersistedState where
  last_weekly_report_timestamp : Option String
  disk_alert_last_sent_date : Option String
  projects : List (String × ProjectState)
deriving DecidableEq

/-- `StateManager.save_state` (lines 122-145): the persisted dictionary.
(`asdict` carries over the four dataclass fields unchanged.) -/
def save_state (s : GlobalState) : PersistedState :=
  ⟨s.last_weekly_report_timestamp, s.disk_alert_last_sent_date, s.projects⟩

/-- `StateManager._load_state` (lines 85-120): `none` models a missing or
corrupt state file — both yield the empty state; otherwise `GlobalState` is
reconstructed from the persisted dictionary via `ProjectState(**pstate_dict)`. -/
def load_state (file : Option PersistedState) : GlobalState :=
  match file with
  | none => GlobalState.empty
  | some d => ⟨d.last_weekly_report_timestamp, d.disk_alert_last_sent_date, d.projects⟩

/-- `StateManager.record_deletion` (lines 151-154): record then save; the
manager's in-memory state and the persisted form after the save. -/
def manager_record_deletion (s : GlobalState) (pid : String)
    (file_size_bytes : Nat) (now_iso : String) : GlobalState × PersistedState :=
  let s' := s.record_deletion pid file_size_bytes now_iso
  (s', save_state s')

/- ## Timestamp extractor (src/backup_scanner.py lines 55-120).

`_parse_datetime_from_filename` is glue around two library parsers:

* `datetime.strptime(data, fmt)`, embedded below for the directives the
  configured formats use (`%Y %m %d %H %M %S` plus literal characters).
  CPython compiles the format to a regular expression (`_strptime.TimeRE`:
  `%Y` is four digits, `%m` is `1[0-2]|0[1-9]|[1-9]`, `%d` is
  `3[01]|[12]\d|0[1-9]|[1-9]`, `%H` is `2[0-3]|[0-1]\d|\d`, `%M` is
  `[0-5]\d|\d`, `%S` is `6[0-1]|[0-5]\d|\d`), matches it from the start
  of the string with leftmost-alternative backtracking, raises if there
  is no match or unconverted data remains, then builds the `datetime`,
  which validates the field ranges.  Unparsed fields keep strptime's
  defaults (year 1900, month 1, day 1, midnight).

* `dateutil.parser.parse(filename, fuzzy=True)`, the last-resort fuzzy
  parser (line 115), a third-party library that is not part of this
  repository; it is modelled from the spec at the end of this section. -/

/-- A compiled strptime format token: a directive or a literal character. -/
inductive FmtTok where
  | lit (c : Char)
  | dirY
  | dirm
  | dird
  | dirH
  | dirM
  | dirS
deriving DecidableEq

/-- Compile a strptime format string into tokens; `none` for a directive
outside the embedded subset (CPython would raise for an unknown one, and the
caller treats every failure alike). -/
def compileFormat : List Char → Option (List FmtTok)
  | [] => some []
  | '%' :: c :: rest =>
    match
      (match c with
       | 'Y' => some FmtTok.dirY
       | 'm' => some FmtTok.dirm
       | 'd' => some FmtTok.dird
       | 'H' => some FmtTok.dirH
       | 'M' => some FmtTok.dirM
       | 'S' => some FmtTok.dirS
       | '%' => some (FmtTok.lit '%')
       | _ => none) with
    | none => none
    | some t => (compileFormat rest).map (fun ts => t :: ts)
  | '%' :: [] => none
  | c :: rest => (compileFormat rest).map (fun ts => FmtTok.lit c :: ts)

/-- Numeric value of a digit character. -/
def digitVal (c : Char) : Int :=
  (c.toNat : Int) - 48

/-- The candidate matches of one directive at the head of the input, as
(value, rest) pairs in the alternation order of CPython's `TimeRE` regex
fragment for that directive. -/
def dirMatches : FmtTok → List Char → List (Int × List Char)
  | .lit _, _ => []
  | .dirY, s =>
    match s with
    | a :: b :: c :: d :: r =>
      if a.isDigit && b.isDigit && c.isDigit && d.isDigit then
        [(digitVal a * 1000 + digitVal b * 100 + digitVal c * 10 + digitVal d, r)]
      else []
    | _ => []
  | .dirm, s =>
    (match s with
     | '1' :: c :: r => if '0' ≤ c && c ≤ '2' then [(10 + digitVal c, r)] else []
     | _ => []) ++
    (match s with
     | '0' :: c :: r => if '1' ≤ c && c ≤ '9' then [(digitVal c, r)] else []
     | _ => []) ++
    (match s with
     | c :: r => if '1' ≤ c && c ≤ '9' then [(digitVal c, r)] else []
     | _ => [])
  | .dird, s =>
    (match s with
     | '3' :: c :: r => if c = '0' || c = '1' then [(30 + digitVal c, r)] else []
     | _ => []) ++
    (match s with
     | a :: c :: r =>
       if (a = '1' || a = '2') && c.isDigit then
         [(digitVal a * 10 + digitVal c, r)]
       else []
     | _ => []) ++
    (match s with
     | '0' :: c :: r => if '1' ≤ c && c ≤ '9' then [(digitVal c, r)] else []
     | _ => []) ++
    (match s with
     | c :: r => if '1' ≤ c && c ≤ '9' then [(digitVal c, r)] else []
     | _ => [])
  | .dirH, s =>
    (match s with
     | '2' :: c :: r => if '0' ≤ c && c ≤ '3' then [(20 + digitVal c, r)] else []
     | _ => []) ++
    (match s with
     | a :: c :: r =>
       if (a = '0' || a = '1') && c.isDigit then
         [(digitVal a * 10 + digitVal c, r)]
       else []
     | _ => []) ++
    (match s with
     | c :: r => if c.isDigit then [(digitVal c, r)] else []
     | _ => [])
  | .dirM, s =>
    (match s with
     | a :: c :: r =>
       if ('0' ≤ a && a ≤ '5') && c.isDigit then
         [(digitVal a * 10 + digitVal c, r)]
       else []
     | _ => []) ++
    (match s with
     | c :: r => if c.isDigit then [(digitVal c, r)] else []
     | _ => [])
  | .dirS, s =>
    (match s with
     | '6' :: c :: r => if c = '0' || c = '1' then [(60 + digitVal c, r)] else []
     | _ => []) ++
    (match s with
     | a :: c :: r =>
       if ('0' ≤ a && a ≤ '5') && c.isDigit then
         [(digitVal a * 10 + digitVal c, r)]
       else []
     | _ => []) ++
    (match s with
     | c :: r => if c.isDigit then [(digitVal c, r)] else []
     | _ => [])

/-- The fields collected while matching, with strptime's defaults. -/
structure StrptimeFields where
  fY : Int := 1900
  fm : Int := 1
  fd : Int := 1
  fH : Int := 0
  fM : Int := 0
  fS : Int := 0
deriving DecidableEq

/-- Store a directive's parsed value. -/
def setField (t : FmtTok) (v : Int) (st : StrptimeFields) : StrptimeFields :=
  match t with
  | .lit _ => st
  | .dirY => { st with fY := v }
  | .dirm => { st with fm := v }
  | .dird => { st with fd := v }
  | .dirH => { st with fH := v }
  | .dirM => { st with fM := v }
  | .dirS => { st with fS := v }

/-- Match the compiled format against the input with the regex engine's
leftmost-preference backtracking: the first full match of the token list,
returning the collected fields and the unconsumed remainder. -/
def runToks : List FmtTok → StrptimeFields → List Char → Option (StrptimeFields × List Char)
  | [], st, s => some (st, s)
  | .lit c :: ts, st, s =>
    match s with
    | c' :: r => if c' = c then runToks ts st r else none
    | [] => none
  | t :: ts, st, s =>
    (dirMatches t s).findSome? (fun vr => runToks ts (setField t vr.1 st) vr.2)

/-- The `datetime(...)` constructor's validation of the collected fields
(`MINYEAR ≤ year ≤ MAXYEAR`, month 1-12, day within the month, time fields in
range); `none` is the `ValueError` it raises otherwise. -/
def mkValidDatetime (st : StrptimeFields) : Option PyDatetime :=
  if 1 ≤ st.fY ∧ st.fY ≤ 9999 ∧ 1 ≤ st.fm ∧ st.fm ≤ 12 ∧
     1 ≤ st.fd ∧ st.fd ≤ daysInMonth st.fY st.fm ∧
     0 ≤ st.fH ∧ st.fH ≤ 23 ∧ 0 ≤ st.fM ∧ st.fM ≤ 59 ∧ 0 ≤ st.fS ∧ st.fS ≤ 59 then
    some ⟨st.fY, st.fm, st.fd, st.fH, st.fM, st.fS⟩
  else none

/-- `datetime.strptime(data, fmt)` for the embedded directive subset; `none`
is the `ValueError` the Python raises on a failed parse. -/
def strptime (data fmt : String) : Option PyDatetime :=
  match compileFormat fmt.toList with
  | none => none
  | some toks =>
    match runToks toks {} data.toList with
    | none => none
    | some (st, rest) =>
      match rest with
      | [] => mkValidDatetime st
      | _ :: _ => none

/-- Python `str.split(sep)` for a one-character separator: the pieces between
occurrences of `sep`, empty pieces kept. -/
def pySplitAux (sep : Char) : List Char → List Char → List String
  | [], acc => [String.mk acc.reverse]
  | c :: rest, acc =>
    if c = sep then String.mk acc.reverse :: pySplitAux sep rest []
    else pySplitAux sep rest (c :: acc)

/-- `s.split(sep)` on a string. -/
def pySplit (s : String) (sep : Char) : List String :=
  pySplitAux sep s.toList []

/-- The attempts `_parse_datetime_from_filename` makes for one format, in
source order (lines 65-111): the whole filename; then for each `.`-separated
part, each of its `_`-separated subparts and then the part itself; then the
first `.`-part again as `base_name`.  The first success wins. -/
def tryFormat (filename fmt : String) : Option PyDatetime :=
  match strptime filename fmt with
  | some dt => some dt
  | none =>
    let parts := pySplit filename '.'
    match
      parts.findSome? (fun part =>
        match (pySplit part '_').findSome? (fun sub => strptime sub fmt) with
        | some dt => some dt
        | none => strptime part fmt) with
    | some dt => some dt
    | none =>
      match parts with
      | base :: _ => strptime base fmt
      | [] => none

/-- The configured-format stage of `_parse_datetime_from_filename` (lines
64-111): the formats are tried in priority order and the first one that
matches anywhere wins. -/
def tryConfiguredFormats (formats : List String) (filename : String) :
    Option PyDatetime :=
  formats.findSome? (fun fmt => tryFormat filename fmt)

/-- Maximal runs of decimal digits in a string, the numeric tokens of
dateutil's lexer. -/
def digitRunsAux : List Char → List Char → List (List Char)
  | [], acc => if acc = [] then [] else [acc.reverse]
  | c :: rest, acc =>
    if c.isDigit then digitRunsAux rest (c :: acc)
    else if acc = [] then digitRunsAux rest []
    else acc.reverse :: digitRunsAux rest []

/-- Numeric tokens of a filename. -/
def digitRuns (s : String) : List (List Char) :=
  digitRunsAux s.toList []

/-- Value of a digit run. -/
def digitsToInt (s : List Char) : Int :=
  s.foldl (fun n c => n * 10 + digitVal c) 0

/-- Modelled from the spec: the "last resort" of the extractor is the
third-party `dateutil.parser.parse(filename, fuzzy=True)` (line 115), whose
code is not part of this repository.  Per the spec it is "a permissive,
locale-agnostic fuzzy date/time parser applied to the whole filename"; this
models its behaviour on the token shapes backup filenames exercise: tokens
that carry no date information are skipped, a standalone 8-digit numeric
token is read as `YYYYMMDD`, a later 6-digit numeric token as `HHMMSS`, and a
filename with no date-bearing token at all is "no match" (the parser raises,
line 117 catches).  The assembled fields are validated like any `datetime`;
fields never assigned keep the current-date default, so a filename whose
date is fully determined by its tokens parses independently of the clock. -/
def dateutilFuzzy (filename : String) : Option PyDatetime :=
  let step := fun (st : Option (Int × Int × Int) × Option (Int × Int × Int))
                  (run : List Char) =>
    match st with
    | (none, hms) =>
      if run.length = 8 then
        (some (digitsToInt (run.take 4), digitsToInt ((run.drop 4).take 2),
               digitsToInt (run.drop 6)), hms)
      else (none, hms)
    | (some ymd, none) =>
      if run.length = 6 then
        (some ymd, some (digitsToInt (run.take 2), digitsToInt ((run.drop 2).take 2),
                         digitsToInt (run.drop 4)))
      else (some ymd, none)
    | st' => st'
  match (digitRuns filename).foldl step (none, none) with
  | (none, _) => none
  | (some (y, mo, d), hms) =>
    let t := hms.getD (0, 0, 0)
    mkValidDatetime ⟨y, mo, d, t.1, t.2.1, t.2.2⟩

/-- `BackupScanner._parse_datetime_from_filename` (lines 55-120): the
configured formats in priority order, then the fuzzy fallback, else `none`
(never raises). -/
def parse_datetime_from_filename (formats : List String) (filename : String) :
    Option PyDatetime :=
  match tryConfiguredFormats formats filename with
  | some dt => some dt
  | none => dateutilFuzzy filename

/- ## Backup scanner (src/backup_scanner.py lines 122-202).

The directory walk is embedded by passing in what the filesystem answers:
whether the project path exists and is a directory, and the entries of
`iterdir()` with their `is_file()` answer and `stat().st_size` result
(`none` for the `OSError` the stat can raise).  The compiled regular
expression `re.compile(filename_pattern).match` is a caller-configured
library object and enters as the predicate it denotes on names.
Megabyte arithmetic is Python float arithmetic, embedded as exact
rationals. -/

/-- One entry of `project_path.iterdir()`. -/
structure DirEntry where
  name : String
  is_file : Bool
  statSize : Option Nat
deriving DecidableEq

/-- The body of the scan loop for one entry (lines 153-195): skip non-files,
non-matching names, stat failures; files under the size threshold go to the
undersized list with their megabyte size; otherwise a parsed timestamp makes
a valid `BackupFile` and a failed parse skips the file. -/
def scanEntry (formats : List String) (matchesPattern : String → Bool)
    (min_size_bytes : Rat) (project_path project_id : String) (item : DirEntry) :
    Option (BackupFile ⊕ (String × Rat)) :=
  if !item.is_file then none
  else if !(matchesPattern item.name) then none
  else
    match item.statSize with
    | none => none
    | some size_bytes =>
      let size_mb : Rat := (size_bytes : Rat) / (1024 * 1024)
      if (size_bytes : Rat) < min_size_bytes then
        some (Sum.inr (item.name, size_mb))
      else
        match parse_datetime_from_filename formats item.name with
        | none => none
        | some timestamp =>
          some (Sum.inl
            ⟨project_path ++ "/" ++ item.name, item.name, timestamp,
             size_bytes, project_id⟩)

/-- The contribution of one loop iteration to `valid_backups`. -/
def scanValid (formats : List String) (matchesPattern : String → Bool)
    (min_size_bytes : Rat) (project_path project_id : String) (item : DirEntry) :
    Option BackupFile :=
  match scanEntry formats matchesPattern min_size_bytes project_path
      project_id item with
  | some (Sum.inl b) => some b
  | _ => none

/-- The contribution of one loop iteration to `undersized_files`. -/
def scanUndersized (formats : List String) (matchesPattern : String → Bool)
    (min_size_bytes : Rat) (project_path project_id : String) (item : DirEntry) :
    Option (String × Rat) :=
  match scanEntry formats matchesPattern min_size_bytes project_path
      project_id item with
  | some (Sum.inr u) => some u
  | _ => none

/-- `BackupScanner.scan_project_backups` (lines 122-202): `(valid_backups,
undersized_files)`.  A missing or non-directory project path yields two empty
lists; otherwise each entry is classified by `scanEntry`, appending to the
two lists in directory order (`min_size_bytes = min_file_size_mb * 1024 *
1024`, line 149). -/
def scan_project_backups (formats : List String) (matchesPattern : String → Bool)
    (min_file_size_mb : Rat) (project_path project_id : String)
    (path_exists path_is_dir : Bool) (entries : List DirEntry) :
    List BackupFile × List (String × Rat) :=
  if !path_exists then ([], [])
  else if !path_is_dir then ([], [])
  else
    let min_size_bytes := min_file_size_mb * 1024 * 1024
    (entries.filterMap
       (scanValid formats matchesPattern min_size_bytes project_path project_id),
     entries.filterMap
       (scanUndersized formats matchesPattern min_size_bytes project_path project_id))

/- ## Claims about the disk monitor. -/

/-- C5: `should_alert` fires exactly when the observed free-space percentage
is strictly below the trigger threshold, `is_resolved` holds exactly when it
is strictly above trigger + margin, resolution never happens at or below
trigger + margin, and the sample sequence 9%, 11%, 14%, 16% under trigger=10,
margin=5 alerts at 9%, stays unresolved at 11% and 14%, and resolves only at
16%. -/
theorem hysteresis_thresholds (T M : Rat) (u : DiskUsageRaw) (hu : u.total ≠ 0) :
    ((should_alert (mkDiskMonitor T M) true (some u)).1 = true ↔
      (u.free : Rat) / (u.total : Rat) * 100 < T)
    ∧ (is_resolved (mkDiskMonitor T M) true (some u) = true ↔
      T + M < (u.free : Rat) / (u.total : Rat) * 100)
    ∧ (∀ v : DiskUsageRaw, v.total ≠ 0 →
        (v.free : Rat) / (v.total : Rat) * 100 ≤ T + M →
        is_resolved (mkDiskMonitor T M) true (some v) = false)
    ∧ (should_alert (mkDiskMonitor 10 5) true (some ⟨100, 91, 9⟩)).1 = true
    ∧ is_resolved (mkDiskMonitor 10 5) true (some ⟨100, 89, 11⟩) = false
    ∧ is_resolved (mkDiskMonitor 10 5) true (some ⟨100, 86, 14⟩) = false
    ∧ is_resolved (mkDiskMonitor 10 5) true (some ⟨100, 84, 16⟩) = true := by
  refine ⟨?_, ?_, ?_,
    by norm_num [should_alert, get_disk_usage, mkDiskMonitor],
    by norm_num [is_resolved, get_disk_usage, mkDiskMonitor],
    by norm_num [is_resolved, get_disk_usage, mkDiskMonitor],
    by norm_num [is_resolved, get_disk_usage, mkDiskMonitor]⟩
  · simp [should_alert, get_disk_usage, mkDiskMonitor, hu]
  · simp [is_resolved, get_disk_usage, mkDiskMonitor, hu]
  · intro v hv hle
    simp [is_resolved, get_disk_usage, mkDiskMonitor, hv]
    exact hle

/-- Witness for `hysteresis_thresholds` at trigger 10, margin 5 and the
concrete 9%-free sample. -/
theorem hysteresis_thresholds_witness :
    (100 : Nat) ≠ 0 ∧
    ((should_alert (mkDiskMonitor 10 5) true (some ⟨100, 91, 9⟩)).1 = true ↔
      ((9 : Nat) : Rat) / ((100 : Nat) : Rat) * 100 < 10) :=
  ⟨by decide, (hysteresis_thresholds 10 5 ⟨100, 91, 9⟩ (by decide)).1⟩

/-- C6: whenever the disk-usage reading fails — the monitored path does not
exist or the OS usage query raises — `should_alert` returns a `False` alert
flag: an unobservable sample never produces an alert. -/
theorem failed_reading_never_alerts (T M : Rat) (path_exists : Bool)
    (raw : Option DiskUsageRaw) (h : path_exists = false ∨ raw = none) :
    (should_alert (mkDiskMonitor T M) path_exists raw).1 = false := by
  rcases h with h | h
  · subst h
    simp [should_alert, get_disk_usage]
  · subst h
    cases path_exists <;> simp [should_alert, get_disk_usage]

/-- Witness for `failed_reading_never_alerts`: both failure modes at
concrete inputs. -/
theorem failed_reading_never_alerts_witness :
    (should_alert (mkDiskMonitor 10 5) false (some ⟨100, 91, 9⟩)).1 = false ∧
    (should_alert (mkDiskMonitor 10 5) true none).1 = false :=
  ⟨failed_reading_never_alerts 10 5 false (some ⟨100, 91, 9⟩) (Or.inl rfl),
   failed_reading_never_alerts 10 5 true none (Or.inr rfl)⟩

/-- C10: `is_resolved` is `False` on every unobservable sample (missing path
or failed usage query), and whenever it reports `True` there was an actually
observed sample whose free-space percentage strictly exceeds trigger +
margin. -/
theorem is_resolved_requires_observation (T M : Rat) (path_exists : Bool)
    (raw : Option DiskUsageRaw) :
    ((path_exists = false ∨ raw = none) →
      is_resolved (mkDiskMonitor T M) path_exists raw = false)
    ∧ (is_resolved (mkDiskMonitor T M) path_exists raw = true →
      ∃ u : DiskUsageRaw, raw = some u ∧ path_exists = true ∧
        T + M < (u.free : Rat) / (u.total : Rat) * 100) := by
  constructor
  · rintro (h | h)
    · subst h
      simp [is_resolved, get_disk_usage]
    · subst h
      cases path_exists <;> simp [is_resolved, get_disk_usage]
  · intro h
    cases path_exists with
    | false => simp [is_resolved, get_disk_usage] at h
    | true =>
      cases raw with
      | none => simp [is_resolved, get_disk_usage] at h
      | some u =>
        by_cases h0 : u.total = 0
        · simp [is_resolved, get_disk_usage, h0] at h
        · simp [is_resolved, get_disk_usage, mkDiskMonitor, h0] at h
          exact ⟨u, rfl, rfl, h⟩

/-- Witness for `is_resolved_requires_observation`: a failed reading is not
resolved. -/
theorem is_resolved_requires_observation_witness :
    is_resolved (mkDiskMonitor 10 5) true none = false :=
  (is_resolved_requires_observation 10 5 true none).1 (Or.inr rfl)

/- ## Claims about the rotation engine: purity. -/

/-- `calculate_deletions` with the ambient wall-clock time passed explicitly:
the method (src/rotation_engine.py lines 75-162) never consults the clock,
so the parameter is unused — which is the content of the purity claim. -/
def calculate_deletions_at (_now : PyDatetime) (daily_count weekly_count monthly_count : Nat)
    (backups : List BackupFile) : List BackupFile :=
  calculate_deletions daily_count weekly_count monthly_count backups

/-- C4: `calculate_deletions` is a pure, deterministic function of the record
list and the policy counts: two applications to the same unmodified input
yield the same deletion set, and the result does not depend on the current
wall-clock time. -/
theorem calculate_deletions_pure (daily_count weekly_count monthly_count : Nat)
    (backups : List BackupFile) (now₁ now₂ : PyDatetime) :
    (calculate_deletions_at now₁ daily_count weekly_count monthly_count backups
      = calculate_deletions_at now₂ daily_count weekly_count monthly_count backups)
    ∧ (calculate_deletions daily_count weekly_count monthly_count backups
      = calculate_deletions daily_count weekly_count monthly_count backups) :=
  ⟨rfl, rfl⟩

/- ## Claims about the state store. -/

/-- C9: recording deletions of 10, 20 and 30 bytes for project "p1" through
the state manager (each save persisting the state), then reloading the store
from the last persisted form, yields `deleted_files_count = 3` and
`deleted_files_size_bytes = 60`. -/
theorem state_roundtrip_preserves_counters :
    (let r1 := manager_record_deletion GlobalState.empty "p1" 10 "2026-01-01T00:00:00"
     let r2 := manager_record_deletion r1.1 "p1" 20 "2026-01-02T00:00:00"
     let r3 := manager_record_deletion r2.1 "p1" 30 "2026-01-03T00:00:00"
     let reloaded := load_state (some r3.2)
     (reloaded.get_project_state "p1").1.deleted_files_count = 3 ∧
       (reloaded.get_project_state "p1").1.deleted_files_size_bytes = 60) := by
  decide

/- ## Claims about the timestamp extractor. -/

/-- C7 counterexample: with formats `["%Y%m%d_%H%M%S", "%Y-%m-%d"]` and
filename `backup_20240115_030000.tar.gz`, the configured-format stage —
whole filename, every `.`/`_` segment, the dot-delimited base — produces no
match at all (splitting on `_` separates `20240115` from `030000`, and
neither half nor any other candidate satisfies a format), so the extractor's
answer is not obtained via the configured formats but handed off to the
fuzzy fallback. -/
theorem extractor_formats_counterexample :
    tryConfiguredFormats ["%Y%m%d_%H%M%S", "%Y-%m-%d"]
      "backup_20240115_030000.tar.gz" = none
    ∧ parse_datetime_from_filename ["%Y%m%d_%H%M%S", "%Y-%m-%d"]
        "backup_20240115_030000.tar.gz"
      = dateutilFuzzy "backup_20240115_030000.tar.gz" := by
  constructor
  · decide
  · decide

/-- C7 (amended): with the ordered formats `["%Y%m%d_%H%M%S", "%Y-%m-%d"]`
the extractor returns 2024-01-15T03:00:00 for
`backup_20240115_030000.tar.gz` — via the dateutil fuzzy fallback, the
configured formats having failed — and returns the no-match result for
`nightly.bak`. -/
theorem extractor_values :
    parse_datetime_from_filename ["%Y%m%d_%H%M%S", "%Y-%m-%d"]
      "backup_20240115_030000.tar.gz" = some ⟨2024, 1, 15, 3, 0, 0⟩
    ∧ parse_datetime_from_filename ["%Y%m%d_%H%M%S", "%Y-%m-%d"]
        "nightly.bak" = none := by
  constructor
  · decide
  · decide

/- ## Claims about the rotation engine: the daily tier. -/

theorem sortDesc_perm (backups : List BackupFile) :
    (sortDescByTimestamp backups).Perm backups :=
  List.perm_insertionSort tsGE backups

theorem sortDesc_sorted (backups : List BackupFile) :
    (sortDescByTimestamp backups).Pairwise tsGE :=
  List.sorted_insertionSort tsGE backups

/-- In a descending list with pairwise distinct timestamps, a record with
fewer than `N` strictly more recent records in the list lies among the first
`N`. -/
theorem mem_take_of_few_more_recent {l : List BackupFile} {b : BackupFile} {N : Nat}
    (hsort : l.Pairwise tsGE)
    (hdist : l.Pairwise (fun x y => x.timestamp ≠ y.timestamp))
    (hb : b ∈ l)
    (hcount : (l.filter (fun a => PyDatetime.lt b.timestamp a.timestamp)).length < N) :
    b ∈ l.take N := by
  induction l generalizing N with
  | nil => cases hb
  | cons c cs ih =>
    cases N with
    | zero => exact absurd hcount (by omega)
    | succ N' =>
      rw [List.take_succ_cons]
      rcases List.mem_cons.mp hb with rfl | hb'
      · exact List.mem_cons_self _ _
      · have hle : PyDatetime.le b.timestamp c.timestamp = true :=
          (List.pairwise_cons.mp hsort).1 b hb'
        have hne : c.timestamp ≠ b.timestamp :=
          (List.pairwise_cons.mp hdist).1 b hb'
        have hlt : PyDatetime.lt b.timestamp c.timestamp = true := by
          simp only [PyDatetime.lt, Bool.not_eq_true']
          by_contra h
          exact hne (PyDatetime.le_antisymm (Bool.not_eq_false _ ▸ h) hle)
        have hfilter :
            (List.filter (fun a => PyDatetime.lt b.timestamp a.timestamp) (c :: cs))
              = c :: List.filter (fun a => PyDatetime.lt b.timestamp a.timestamp) cs := by
          simp [List.filter_cons, hlt]
        rw [hfilter] at hcount
        simp only [List.length_cons] at hcount
        exact List.mem_cons_of_mem _
          (ih (List.pairwise_cons.mp hsort).2 (List.pairwise_cons.mp hdist).2 hb'
            (by omega))

/-- A path kept by any tier is never the path of a deleted record. -/
theorem not_deleted_of_kept {daily_count weekly_count monthly_count : Nat}
    {backups : List BackupFile} {p : String}
    (hne : backups ≠ [])
    (hp : p ∈ dailyKeepPaths (sortDescByTimestamp backups) daily_count
            ++ weeklyKeepPaths (sortDescByTimestamp backups) weekly_count
            ++ monthlyKeepPaths (sortDescByTimestamp backups) monthly_count) :
    ∀ d ∈ calculate_deletions daily_count weekly_count monthly_count backups,
      d.path ≠ p := by
  intro d hd
  rw [calculate_deletions, if_neg hne] at hd
  have hpred := List.of_mem_filter hd
  simp only [Bool.not_eq_true', decide_eq_false_iff_not] at hpred
  intro heq
  exact hpred (heq ▸ hp)

/-- C1: for a policy with daily = N and an input of at least N records with
pairwise distinct timestamps, a record with fewer than N strictly more
recent records — i.e. any of the N most recent records — never has its path
in the deletion set, whatever the weekly and monthly counts are. -/
theorem daily_tier_never_deleted (N weekly_count monthly_count : Nat)
    (backups : List BackupFile)
    (hdist : backups.Pairwise (fun x y => x.timestamp ≠ y.timestamp))
    (_hlen : N ≤ backups.length)
    (b : BackupFile) (hb : b ∈ backups)
    (hrecent :
      (backups.filter (fun a => PyDatetime.lt b.timestamp a.timestamp)).length < N) :
    ∀ d ∈ calculate_deletions N weekly_count monthly_count backups,
      d.path ≠ b.path := by
  have hne : backups ≠ [] := by
    intro h
    rw [h] at hb
    cases hb
  have hperm := sortDesc_perm backups
  have hdist' : (sortDescByTimestamp backups).Pairwise
      (fun x y => x.timestamp ≠ y.timestamp) :=
    (hperm.pairwise_iff (fun h => Ne.symm h)).mpr hdist
  have hb' : b ∈ sortDescByTimestamp backups := hperm.mem_iff.mpr hb
  have hcount' :
      ((sortDescByTimestamp backups).filter
        (fun a => PyDatetime.lt b.timestamp a.timestamp)).length < N := by
    rw [(hperm.filter _).length_eq]
    exact hrecent
  have htake : b ∈ (sortDescByTimestamp backups).take N :=
    mem_take_of_few_more_recent (sortDesc_sorted backups) hdist' hb' hcount'
  exact not_deleted_of_kept hne
    (List.mem_append_left _ (List.mem_append_left _
      (List.mem_map_of_mem (·.path) htake)))

/-- Witness for `daily_tier_never_deleted`: two records a day apart,
daily = 1; the newer one (no record is more recent) is never deleted. -/
theorem daily_tier_never_deleted_witness :
    (1 ≤ ([⟨"new", "new", ⟨2024, 1, 10, 3, 0, 0⟩, 100, "p"⟩,
           ⟨"old", "old", ⟨2024, 1, 9, 3, 0, 0⟩, 100, "p"⟩] : List BackupFile).length)
    ∧ ∀ d ∈ calculate_deletions 1 0 0
        [⟨"new", "new", ⟨2024, 1, 10, 3, 0, 0⟩, 100, "p"⟩,
         ⟨"old", "old", ⟨2024, 1, 9, 3, 0, 0⟩, 100, "p"⟩],
        d.path ≠ "new" :=
  ⟨by decide,
   daily_tier_never_deleted 1 0 0 _ (by decide) (by decide)
     ⟨"new", "new", ⟨2024, 1, 10, 3, 0, 0⟩, 100, "p"⟩ (by decide) (by decide)⟩

/- ## Claims about the rotation engine: the weekly tier. -/

theorem pyMaxByTimestamp_mem (first : BackupFile) (rest : List BackupFile) :
    pyMaxByTimestamp first rest ∈ first :: rest := by
  induction rest generalizing first with
  | nil => simp [pyMaxByTimestamp]
  | cons x xs ih =>
    have hstep : pyMaxByTimestamp first (x :: xs)
        = pyMaxByTimestamp
            (if PyDatetime.lt first.timestamp x.timestamp then x else first) xs := rfl
    rw [hstep]
    rcases List.mem_cons.mp
        (ih (if PyDatetime.lt first.timestamp x.timestamp then x else first)) with
      h | h
    · rw [h]
      split
      · exact List.mem_cons_of_mem _ (List.mem_cons_self _ _)
      · exact List.mem_cons_self _ _
    · exact List.mem_cons_of_mem _ (List.mem_cons_of_mem _ h)

theorem pyMaxByTimestamp_ge_first (first : BackupFile) (rest : List BackupFile) :
    PyDatetime.le first.timestamp (pyMaxByTimestamp first rest).timestamp = true := by
  induction rest generalizing first with
  | nil => exact PyDatetime.le_refl _
  | cons y ys ih =>
    have hstep : pyMaxByTimestamp first (y :: ys)
        = pyMaxByTimestamp
            (if PyDatetime.lt first.timestamp y.timestamp then y else first) ys := rfl
    rw [hstep]
    have hmono : PyDatetime.le first.timestamp
        (if PyDatetime.lt first.timestamp y.timestamp then y else first).timestamp
          = true := by
      split
      · rename_i hcond
        simp only [PyDatetime.lt, Bool.not_eq_true'] at hcond
        exact PyDatetime.le_of_not_le (by simp [hcond])
      · exact PyDatetime.le_refl _
    exact PyDatetime.le_trans hmono (ih _)

theorem pyMaxByTimestamp_ge (first : BackupFile) (rest : List BackupFile) :
    ∀ x ∈ first :: rest,
      PyDatetime.le x.timestamp (pyMaxByTimestamp first rest).timestamp = true := by
  induction rest generalizing first with
  | nil =>
    intro x hx
    rcases List.mem_cons.mp hx with rfl | h
    · exact PyDatetime.le_refl _
    · cases h
  | cons y ys ih =>
    intro x hx
    have hstep : pyMaxByTimestamp first (y :: ys)
        = pyMaxByTimestamp
            (if PyDatetime.lt first.timestamp y.timestamp then y else first) ys := rfl
    rw [hstep]
    rcases List.mem_cons.mp hx with rfl | hx'
    · have hmono : PyDatetime.le x.timestamp
          (if PyDatetime.lt x.timestamp y.timestamp then y else x).timestamp
            = true := by
        split
        · rename_i hcond
          simp only [PyDatetime.lt, Bool.not_eq_true'] at hcond
          exact PyDatetime.le_of_not_le (by simp [hcond])
        · exact PyDatetime.le_refl _
      exact PyDatetime.le_trans hmono (pyMaxByTimestamp_ge_first _ _)
    · rcases List.mem_cons.mp hx' with rfl | hx''
      · have hmono : PyDatetime.le x.timestamp
            (if PyDatetime.lt first.timestamp x.timestamp then x else first).timestamp
              = true := by
          split
          · exact PyDatetime.le_refl _
          · rename_i hcond
            simp only [PyDatetime.lt, Bool.not_eq_true] at hcond
            simpa using hcond
        exact PyDatetime.le_trans hmono (pyMaxByTimestamp_ge_first _ _)
      · exact ih _ x (List.mem_cons_of_mem _ hx'')

theorem weekBucket_mem {sorted_backups : List BackupFile} {k : Int × Int}
    {x : BackupFile} :
    x ∈ weekBucket sorted_backups k ↔
      x ∈ sorted_backups ∧ isoWeekKey x.timestamp = k := by
  simp [weekBucket, List.mem_filter]

/-- What the weekly tier keeps for a week that has records: a record of that
week; the newest Monday record whenever the week has a Monday record (so in
particular a Monday one); the newest record of the week when it has none. -/
theorem weeklyPick_spec (sorted_backups : List BackupFile) (k : Int × Int)
    (hne : ∃ x ∈ sorted_backups, isoWeekKey x.timestamp = k) :
    ∃ p, weeklyPick sorted_backups k = some p ∧ p ∈ sorted_backups ∧
      isoWeekKey p.timestamp = k ∧
      (∀ x ∈ sorted_backups, isoWeekKey x.timestamp = k →
        is_monday x.timestamp = true →
        is_monday p.timestamp = true ∧
          PyDatetime.le x.timestamp p.timestamp = true) ∧
      ((∀ x ∈ sorted_backups, isoWeekKey x.timestamp = k →
          is_monday x.timestamp = false) →
        ∀ x ∈ sorted_backups, isoWeekKey x.timestamp = k →
          PyDatetime.le x.timestamp p.timestamp = true) := by
  rcases hmons : (weekBucket sorted_backups k).filter (fun b => is_monday b.timestamp)
    with _ | ⟨m, ms⟩
  · obtain ⟨w, hw, hwk⟩ := hne
    have hwb : w ∈ weekBucket sorted_backups k := weekBucket_mem.mpr ⟨hw, hwk⟩
    rcases hbucket : weekBucket sorted_backups k with _ | ⟨b, bs⟩
    · rw [hbucket] at hwb
      cases hwb
    · have hmons' := hmons
      rw [hbucket] at hmons'
      have hpmem : pyMaxByTimestamp b bs ∈ weekBucket sorted_backups k := by
        rw [hbucket]
        exact pyMaxByTimestamp_mem b bs
      refine ⟨pyMaxByTimestamp b bs, ?_, (weekBucket_mem.mp hpmem).1,
        (weekBucket_mem.mp hpmem).2, ?_, ?_⟩
      · simp only [weeklyPick, hbucket, hmons']
      · intro x hx hxk hxm
        have hxf : x ∈ (weekBucket sorted_backups k).filter
            (fun b => is_monday b.timestamp) :=
          List.mem_filter.mpr ⟨weekBucket_mem.mpr ⟨hx, hxk⟩, hxm⟩
        rw [hmons] at hxf
        cases hxf
      · intro _ x hx hxk
        have hxmem : x ∈ b :: bs := by
          rw [← hbucket]
          exact weekBucket_mem.mpr ⟨hx, hxk⟩
        exact pyMaxByTimestamp_ge b bs x hxmem
  · have hpf : pyMaxByTimestamp m ms ∈ (weekBucket sorted_backups k).filter
        (fun b => is_monday b.timestamp) := by
      rw [hmons]
      exact pyMaxByTimestamp_mem m ms
    have hpb := List.mem_of_mem_filter hpf
    refine ⟨pyMaxByTimestamp m ms, ?_, (weekBucket_mem.mp hpb).1,
      (weekBucket_mem.mp hpb).2, ?_, ?_⟩
    · simp only [weeklyPick, hmons]
    · intro x hx hxk hxm
      have hmonp : is_monday (pyMaxByTimestamp m ms).timestamp = true := by
        have := List.of_mem_filter hpf
        simpa using this
      refine ⟨hmonp, ?_⟩
      have hxmem : x ∈ m :: ms := by
        rw [← hmons]
        exact List.mem_filter.mpr ⟨weekBucket_mem.mpr ⟨hx, hxk⟩, hxm⟩
      exact pyMaxByTimestamp_ge m ms x hxmem
    · intro hnomon
      have hm : m ∈ (weekBucket sorted_backups k).filter
          (fun b => is_monday b.timestamp) := by
        rw [hmons]
        exact List.mem_cons_self _ _
      have h1 := weekBucket_mem.mp (List.mem_of_mem_filter hm)
      have h2 := hnomon m h1.1 h1.2
      have h3 : is_monday m.timestamp = true := by
        have := List.of_mem_filter hm
        simpa using this
      simp [h2] at h3

/-- A record the weekly tier picks comes from the sorted list. -/
theorem weeklyPick_mem {sorted_backups : List BackupFile} {k : Int × Int}
    {p : BackupFile} (h : weeklyPick sorted_backups k = some p) :
    p ∈ sorted_backups := by
  rcases hmons : (weekBucket sorted_backups k).filter (fun b => is_monday b.timestamp)
    with _ | ⟨m, ms⟩
  · rcases hbucket : weekBucket sorted_backups k with _ | ⟨b, bs⟩
    · simp [weeklyPick, hbucket] at h
    · have hmons' := hmons
      rw [hbucket] at hmons'
      simp only [weeklyPick, hbucket, hmons', Option.some.injEq] at h
      have hpmem : pyMaxByTimestamp b bs ∈ weekBucket sorted_backups k := by
        rw [hbucket]
        exact pyMaxByTimestamp_mem b bs
      rw [h] at hpmem
      exact (weekBucket_mem.mp hpmem).1
  · simp only [weeklyPick, hmons, Option.some.injEq] at h
    have hpf : pyMaxByTimestamp m ms ∈ (weekBucket sorted_backups k).filter
        (fun b => is_monday b.timestamp) := by
      rw [hmons]
      exact pyMaxByTimestamp_mem m ms
    rw [h] at hpf
    exact (weekBucket_mem.mp (List.mem_of_mem_filter hpf)).1

theorem monthBucket_mem {sorted_backups : List BackupFile} {k : Int × Int}
    {x : BackupFile} :
    x ∈ monthBucket sorted_backups k ↔
      x ∈ sorted_backups ∧ monthKey x.timestamp = k := by
  simp [monthBucket, List.mem_filter]

/-- A record the monthly tier picks comes from the sorted list. -/
theorem monthlyPick_mem {sorted_backups : List BackupFile} {k : Int × Int}
    {p : BackupFile} (h : monthlyPick sorted_backups k = some p) :
    p ∈ sorted_backups := by
  rcases hfs : (monthBucket sorted_backups k).filter
      (fun b => is_first_of_month b.timestamp) with _ | ⟨m, ms⟩
  · rcases hbucket : monthBucket sorted_backups k with _ | ⟨b, bs⟩
    · simp [monthlyPick, hbucket] at h
    · have hfs' := hfs
      rw [hbucket] at hfs'
      simp only [monthlyPick, hbucket, hfs', Option.some.injEq] at h
      have hpmem : pyMaxByTimestamp b bs ∈ monthBucket sorted_backups k := by
        rw [hbucket]
        exact pyMaxByTimestamp_mem b bs
      rw [h] at hpmem
      exact (monthBucket_mem.mp hpmem).1
  · simp only [monthlyPick, hfs, Option.some.injEq] at h
    have hpf : pyMaxByTimestamp m ms ∈ (monthBucket sorted_backups k).filter
        (fun b => is_first_of_month b.timestamp) := by
      rw [hfs]
      exact pyMaxByTimestamp_mem m ms
    rw [h] at hpf
    exact (monthBucket_mem.mp (List.mem_of_mem_filter hpf)).1

/-- C2: for every week key selected by the weekly tier, if the week has a
Monday record then the most recent Monday record of that week is never
deleted — even when a non-Monday record of the same week is more recent —
and if the week has no Monday record then the most recent record of the
week is never deleted.  ("Most recent" is by identity: every other
candidate of the week with a different path is strictly older.) -/
theorem weekly_tier_monday_preference (daily_count weekly_count monthly_count : Nat)
    (backups : List BackupFile) (k : Int × Int)
    (hk : k ∈ selectedWeekKeys (sortDescByTimestamp backups) weekly_count)
    (r : BackupFile) (hr : r ∈ backups) (hrk : isoWeekKey r.timestamp = k) :
    (is_monday r.timestamp = true →
      (∀ x ∈ backups, isoWeekKey x.timestamp = k → is_monday x.timestamp = true →
        x.path ≠ r.path → PyDatetime.lt x.timestamp r.timestamp = true) →
      ∀ d ∈ calculate_deletions daily_count weekly_count monthly_count backups,
        d.path ≠ r.path)
    ∧ ((∀ x ∈ backups, isoWeekKey x.timestamp = k → is_monday x.timestamp = false) →
      (∀ x ∈ backups, isoWeekKey x.timestamp = k → x.path ≠ r.path →
        PyDatetime.lt x.timestamp r.timestamp = true) →
      ∀ d ∈ calculate_deletions daily_count weekly_count monthly_count backups,
        d.path ≠ r.path) := by
  have hne : backups ≠ [] := by
    intro h
    rw [h] at hr
    cases hr
  have hperm := sortDesc_perm backups
  have hr' : r ∈ sortDescByTimestamp backups := hperm.mem_iff.mpr hr
  obtain ⟨p, hpick, hpmem, hpkey, hpmon, hpnomon⟩ :=
    weeklyPick_spec (sortDescByTimestamp backups) k ⟨r, hr', hrk⟩
  have hkeep : ∀ d ∈ calculate_deletions daily_count weekly_count monthly_count backups,
      d.path ≠ p.path := by
    apply not_deleted_of_kept hne
    apply List.mem_append_left
    apply List.mem_append_right
    exact List.mem_map_of_mem (·.path)
      (List.mem_filterMap.mpr ⟨k, hk, hpick⟩)
  constructor
  · intro hmon hmax
    obtain ⟨hpmonday, hle⟩ := hpmon r hr' hrk hmon
    have hpr : p.path = r.path := by
      by_contra hnepath
      have := hmax p (hperm.mem_iff.mp hpmem) hpkey hpmonday hnepath
      simp only [PyDatetime.lt, Bool.not_eq_true'] at this
      rw [hle] at this
      cases this
    intro d hd
    rw [← hpr]
    exact hkeep d hd
  · intro hnomon hmax
    have hle : PyDatetime.le r.timestamp p.timestamp = true :=
      hpnomon (fun x hx hxk => hnomon x (hperm.mem_iff.mp hx) hxk) r hr' hrk
    have hpr : p.path = r.path := by
      by_contra hnepath
      have := hmax p (hperm.mem_iff.mp hpmem) hpkey hnepath
      simp only [PyDatetime.lt, Bool.not_eq_true'] at this
      rw [hle] at this
      cases this
    intro d hd
    rw [← hpr]
    exact hkeep d hd

/-- Witness for `weekly_tier_monday_preference`: a Monday record and a newer
Tuesday record in ISO week (2024, 2); with weekly = 1 the Monday record is
kept although the Tuesday one is more recent. -/
theorem weekly_tier_monday_preference_witness :
    ((2024, 2) ∈ selectedWeekKeys (sortDescByTimestamp
        [⟨"tue", "tue", ⟨2024, 1, 9, 3, 0, 0⟩, 100, "p"⟩,
         ⟨"mon", "mon", ⟨2024, 1, 8, 3, 0, 0⟩, 100, "p"⟩]) 1)
    ∧ ∀ d ∈ calculate_deletions 0 1 0
        [⟨"tue", "tue", ⟨2024, 1, 9, 3, 0, 0⟩, 100, "p"⟩,
         ⟨"mon", "mon", ⟨2024, 1, 8, 3, 0, 0⟩, 100, "p"⟩],
        d.path ≠ "mon" :=
  ⟨by decide,
   (weekly_tier_monday_preference 0 1 0
      [⟨"tue", "tue", ⟨2024, 1, 9, 3, 0, 0⟩, 100, "p"⟩,
       ⟨"mon", "mon", ⟨2024, 1, 8, 3, 0, 0⟩, 100, "p"⟩]
      (2024, 2) (by decide)
      ⟨"mon", "mon", ⟨2024, 1, 8, 3, 0, 0⟩, 100, "p"⟩ (by decide) (by decide)).1
     (by decide) (by decide)⟩

/- ## Claims about the rotation engine: retained-set size. -/

/-- The distinct paths the daily tier selects. -/
def dailyPathSet (daily_count : Nat) (backups : List BackupFile) : Finset String :=
  (dailyKeepPaths (sortDescByTimestamp backups) daily_count).toFinset

/-- The distinct paths the weekly tier selects. -/
def weeklyPathSet (weekly_count : Nat) (backups : List BackupFile) : Finset String :=
  (weeklyKeepPaths (sortDescByTimestamp backups) weekly_count).toFinset

/-- The distinct paths the monthly tier selects. -/
def monthlyPathSet (monthly_count : Nat) (backups : List BackupFile) : Finset String :=
  (monthlyKeepPaths (sortDescByTimestamp backups) monthly_count).toFinset

/-- The retained set by record identity: the distinct paths of the input
records that are not in the deletion set. -/
def retainedPathSet (daily_count weekly_count monthly_count : Nat)
    (backups : List BackupFile) : Finset String :=
  ((backups.filter (fun b =>
      !(decide (b.path ∈ (calculate_deletions daily_count weekly_count monthly_count
          backups).map (·.path))))).map (·.path)).toFinset

/-- The retained paths are exactly the union of the three tiers' picks. -/
theorem retainedPathSet_eq_union (daily_count weekly_count monthly_count : Nat)
    (backups : List BackupFile) :
    retainedPathSet daily_count weekly_count monthly_count backups
      = dailyPathSet daily_count backups ∪ weeklyPathSet weekly_count backups
          ∪ monthlyPathSet monthly_count backups := by
  by_cases hne : backups = []
  · subst hne
    have hs : sortDescByTimestamp [] = [] := rfl
    simp [retainedPathSet, dailyPathSet, weeklyPathSet, monthlyPathSet,
      dailyKeepPaths, weeklyKeepPaths, monthlyKeepPaths, selectedWeekKeys,
      selectedMonthKeys, hs, List.take_nil, calculate_deletions]
  · have hperm := sortDesc_perm backups
    have hdel : calculate_deletions daily_count weekly_count monthly_count backups
        = (sortDescByTimestamp backups).filter (fun b =>
            !(decide (b.path ∈ dailyKeepPaths (sortDescByTimestamp backups) daily_count
              ++ weeklyKeepPaths (sortDescByTimestamp backups) weekly_count
              ++ monthlyKeepPaths (sortDescByTimestamp backups) monthly_count))) := by
      rw [calculate_deletions, if_neg hne]
    ext p
    simp only [retainedPathSet, dailyPathSet, weeklyPathSet, monthlyPathSet,
      Finset.mem_union, List.mem_toFinset, List.mem_map, List.mem_filter,
      Bool.not_eq_true', decide_eq_false_iff_not]
    constructor
    · rintro ⟨b, ⟨hb, hbnotdel⟩, rfl⟩
      by_contra hno
      push_neg at hno
      have hnotkeep : b.path ∉
          dailyKeepPaths (sortDescByTimestamp backups) daily_count
            ++ weeklyKeepPaths (sortDescByTimestamp backups) weekly_count
            ++ monthlyKeepPaths (sortDescByTimestamp backups) monthly_count := by
        intro hmem
        rcases List.mem_append.mp hmem with hmem' | hmem'
        · rcases List.mem_append.mp hmem' with hmem'' | hmem''
          · exact (hno.1.1 hmem'').elim
          · exact (hno.1.2 hmem'').elim
        · exact (hno.2 hmem').elim
      apply hbnotdel
      refine ⟨b, ?_, rfl⟩
      rw [hdel]
      exact List.mem_filter.mpr ⟨hperm.mem_iff.mpr hb, by
        simp only [Bool.not_eq_true', decide_eq_false_iff_not]
        exact hnotkeep⟩
    · intro hp
      have hkeep : p ∈ dailyKeepPaths (sortDescByTimestamp backups) daily_count
          ++ weeklyKeepPaths (sortDescByTimestamp backups) weekly_count
          ++ monthlyKeepPaths (sortDescByTimestamp backups) monthly_count := by
        rcases hp with (hp | hp) | hp
        · exact List.mem_append_left _ (List.mem_append_left _ hp)
        · exact List.mem_append_left _ (List.mem_append_right _ hp)
        · exact List.mem_append_right _ hp
      have hx : ∃ x ∈ sortDescByTimestamp backups, x.path = p := by
        rcases hp with (hp | hp) | hp
        · obtain ⟨x, hx, hxp⟩ := List.mem_map.mp hp
          exact ⟨x, List.mem_of_mem_take hx, hxp⟩
        · obtain ⟨x, hx, hxp⟩ := List.mem_map.mp hp
          obtain ⟨k, _, hpick⟩ := List.mem_filterMap.mp hx
          exact ⟨x, weeklyPick_mem hpick, hxp⟩
        · obtain ⟨x, hx, hxp⟩ := List.mem_map.mp hp
          obtain ⟨k, _, hpick⟩ := List.mem_filterMap.mp hx
          exact ⟨x, monthlyPick_mem hpick, hxp⟩
      obtain ⟨x, hxs, hxp⟩ := hx
      refine ⟨x, ⟨hperm.mem_iff.mp hxs, ?_⟩, hxp⟩
      intro hcontra
      obtain ⟨y, hy, hyp⟩ := hcontra
      rw [hdel] at hy
      have := List.of_mem_filter hy
      simp only [Bool.not_eq_true', decide_eq_false_iff_not] at this
      rw [hyp, hxp] at this
      exact this hkeep

theorem card_union_lt_of_inter_nonempty {A B : Finset String} {p : String}
    (hp : p ∈ A ∩ B) : (A ∪ B).card < A.card + B.card := by
  have h1 := Finset.card_union_add_card_inter A B
  have h2 : 0 < (A ∩ B).card := Finset.card_pos.mpr ⟨p, hp⟩
  omega

/-- C3: the retained set, by record identity (file path), has at most
daily + weekly + monthly elements, and can reach that size only when no
path is selected by more than one tier's rule. -/
theorem retained_at_most_policy_total (daily_count weekly_count monthly_count : Nat)
    (backups : List BackupFile) :
    (retainedPathSet daily_count weekly_count monthly_count backups).card
        ≤ daily_count + weekly_count + monthly_count
    ∧ ((retainedPathSet daily_count weekly_count monthly_count backups).card
          = daily_count + weekly_count + monthly_count →
        ∀ p : String,
          ¬(p ∈ dailyPathSet daily_count backups
              ∧ p ∈ weeklyPathSet weekly_count backups)
          ∧ ¬(p ∈ dailyPathSet daily_count backups
              ∧ p ∈ monthlyPathSet monthly_count backups)
          ∧ ¬(p ∈ weeklyPathSet weekly_count backups
              ∧ p ∈ monthlyPathSet monthly_count backups)) := by
  have hA : (dailyPathSet daily_count backups).card ≤ daily_count := by
    refine le_trans (List.toFinset_card_le _) ?_
    rw [dailyKeepPaths, List.length_map]
    exact List.length_take_le _ _
  have hB : (weeklyPathSet weekly_count backups).card ≤ weekly_count := by
    refine le_trans (List.toFinset_card_le _) ?_
    rw [weeklyKeepPaths, List.length_map]
    refine le_trans (List.length_filterMap_le _ _) ?_
    rw [selectedWeekKeys]
    exact List.length_take_le _ _
  have hC : (monthlyPathSet monthly_count backups).card ≤ monthly_count := by
    refine le_trans (List.toFinset_card_le _) ?_
    rw [monthlyKeepPaths, List.length_map]
    refine le_trans (List.length_filterMap_le _ _) ?_
    rw [selectedMonthKeys]
    exact List.length_take_le _ _
  have hU := retainedPathSet_eq_union daily_count weekly_count monthly_count backups
  constructor
  · rw [hU]
    refine le_trans (Finset.card_union_le _ _) ?_
    have := Finset.card_union_le (dailyPathSet daily_count backups)
      (weeklyPathSet weekly_count backups)
    omega
  · intro hcard p
    rw [hU] at hcard
    refine ⟨?_, ?_, ?_⟩
    · rintro ⟨h1, h2⟩
      have hlt := card_union_lt_of_inter_nonempty (Finset.mem_inter.mpr ⟨h1, h2⟩)
      have hb := Finset.card_union_le
        (dailyPathSet daily_count backups ∪ weeklyPathSet weekly_count backups)
        (monthlyPathSet monthly_count backups)
      omega
    · rintro ⟨h1, h2⟩
      have hcomm : dailyPathSet daily_count backups ∪ weeklyPathSet weekly_count backups
          ∪ monthlyPathSet monthly_count backups
            = dailyPathSet daily_count backups ∪ monthlyPathSet monthly_count backups
              ∪ weeklyPathSet weekly_count backups := Finset.union_right_comm _ _ _
      rw [hcomm] at hcard
      have hlt := card_union_lt_of_inter_nonempty (Finset.mem_inter.mpr ⟨h1, h2⟩)
      have hb := Finset.card_union_le
        (dailyPathSet daily_count backups ∪ monthlyPathSet monthly_count backups)
        (weeklyPathSet weekly_count backups)
      omega
    · rintro ⟨h1, h2⟩
      have hassoc : dailyPathSet daily_count backups ∪ weeklyPathSet weekly_count backups
          ∪ monthlyPathSet monthly_count backups
            = dailyPathSet daily_count backups ∪ (weeklyPathSet weekly_count backups
              ∪ monthlyPathSet monthly_count backups) := Finset.union_assoc _ _ _
      rw [hassoc] at hcard
      have hlt := card_union_lt_of_inter_nonempty (Finset.mem_inter.mpr ⟨h1, h2⟩)
      have hb := Finset.card_union_le (dailyPathSet daily_count backups)
        (weeklyPathSet weekly_count backups ∪ monthlyPathSet monthly_count backups)
      omega

/-- Witness for `retained_at_most_policy_total`: a single record with
daily = 1, weekly = monthly = 0 retains exactly one path, and no path is
selected by two tiers. -/
theorem retained_at_most_policy_total_witness :
    (retainedPathSet 1 0 0 [⟨"only", "only", ⟨2024, 1, 10, 3, 0, 0⟩, 100, "p"⟩]).card
        = 1 + 0 + 0
    ∧ ¬("x" ∈ dailyPathSet 1 [⟨"only", "only", ⟨2024, 1, 10, 3, 0, 0⟩, 100, "p"⟩]
        ∧ "x" ∈ weeklyPathSet 0 [⟨"only", "only", ⟨2024, 1, 10, 3, 0, 0⟩, 100, "p"⟩]) :=
  ⟨by decide,
   ((retained_at_most_policy_total 1 0 0
      [⟨"only", "only", ⟨2024, 1, 10, 3, 0, 0⟩, 100, "p"⟩]).2 (by decide) "x").1⟩

/- ## Claims about the scanner. -/

theorem scanValid_eq_some {formats : List String} {mp : String → Bool} {msb : Rat}
    {pp pid : String} {a : DirEntry} {b : BackupFile} :
    scanValid formats mp msb pp pid a = some b ↔
      scanEntry formats mp msb pp pid a = some (Sum.inl b) := by
  unfold scanValid
  cases hsc : scanEntry formats mp msb pp pid a with
  | none => simp
  | some s =>
    cases s with
    | inl b' => simp
    | inr u => simp

theorem scanUndersized_eq_some {formats : List String} {mp : String → Bool}
    {msb : Rat} {pp pid : String} {a : DirEntry} {u : String × Rat} :
    scanUndersized formats mp msb pp pid a = some u ↔
      scanEntry formats mp msb pp pid a = some (Sum.inr u) := by
  unfold scanUndersized
  cases hsc : scanEntry formats mp msb pp pid a with
  | none => simp
  | some s =>
    cases s with
    | inl b' => simp
    | inr u' => simp

/-- A valid record produced by the scan loop carries the entry's name and
comes from a file at or above the size threshold. -/
theorem scanEntry_inl {formats : List String} {mp : String → Bool} {msb : Rat}
    {pp pid : String} {a : DirEntry} {b : BackupFile}
    (h : scanEntry formats mp msb pp pid a = some (Sum.inl b)) :
    b.filename = a.name ∧ ∃ szb : Nat, a.statSize = some szb ∧ ¬((szb : Rat) < msb) := by
  unfold scanEntry at h
  split at h
  · exact Option.noConfusion h
  · split at h
    · exact Option.noConfusion h
    · rcases hss : a.statSize with _ | szb
      · rw [hss] at h
        exact Option.noConfusion h
      · rw [hss] at h
        dsimp only at h
        split at h
        · simp at h
        · rename_i hnotlt
          rcases hp : parse_datetime_from_filename formats a.name with _ | ts
          · rw [hp] at h
            exact Option.noConfusion h
          · rw [hp] at h
            simp only [Option.some.injEq, Sum.inl.injEq] at h
            exact ⟨by rw [← h], szb, rfl, hnotlt⟩

/-- An undersized entry produced by the scan loop is the entry's name paired
with its megabyte size, for a file strictly below the threshold. -/
theorem scanEntry_inr {formats : List String} {mp : String → Bool} {msb : Rat}
    {pp pid : String} {a : DirEntry} {u : String × Rat}
    (h : scanEntry formats mp msb pp pid a = some (Sum.inr u)) :
    ∃ szb : Nat, a.statSize = some szb ∧ (szb : Rat) < msb ∧
      u = (a.name, (szb : Rat) / (1024 * 1024)) := by
  unfold scanEntry at h
  split at h
  · exact Option.noConfusion h
  · split at h
    · exact Option.noConfusion h
    · rcases hss : a.statSize with _ | szb
      · rw [hss] at h
        exact Option.noConfusion h
      · rw [hss] at h
        dsimp only at h
        split at h
        · rename_i hlt
          simp only [Option.some.injEq, Sum.inr.injEq] at h
          exact ⟨szb, rfl, hlt, h.symm⟩
        · rcases hp : parse_datetime_from_filename formats a.name with _ | ts
          · rw [hp] at h
            exact Option.noConfusion h
          · rw [hp] at h
            simp at h

/-- The scan loop classifies a matching undersized file as undersized. -/
theorem scanEntry_undersized {formats : List String} {mp : String → Bool}
    {msb : Rat} {pp pid : String} {e : DirEntry} {sz : Nat}
    (hf : e.is_file = true) (hm : mp e.name = true) (hs : e.statSize = some sz)
    (hlt : (sz : Rat) < msb) :
    scanEntry formats mp msb pp pid e
      = some (Sum.inr (e.name, (sz : Rat) / (1024 * 1024))) := by
  simp [scanEntry, hf, hm, hs, hlt]

/-- Counting occurrences in a `filterMap` whose hits are keyed by the
entry name: a uniquely named entry contributes exactly one occurrence. -/
theorem count_filterMap_unique {l : List DirEntry} {e : DirEntry} {v : String × Rat}
    {uf : DirEntry → Option (String × Rat)}
    (hname : ∀ a p, uf a = some p → p.1 = a.name)
    (hnodup : (l.map DirEntry.name).Nodup)
    (he : e ∈ l) (hue : uf e = some v) :
    (l.filterMap uf).count v = 1 := by
  induction l with
  | nil => cases he
  | cons a as ih =>
    rw [List.map_cons, List.nodup_cons] at hnodup
    rcases List.mem_cons.mp he with rfl | he'
    · rw [List.filterMap_cons_some hue, List.count_cons_self]
      have hzero : (as.filterMap uf).count v = 0 := by
        rw [List.count_eq_zero]
        intro hv
        obtain ⟨a', ha', hua'⟩ := List.mem_filterMap.mp hv
        apply hnodup.1
        have h1 := hname a' v hua'
        have h2 := hname e v hue
        rw [← h2, h1]
        exact List.mem_map_of_mem _ ha'
      omega
    · have hne : ∀ w, uf a = some w → w ≠ v := by
        intro w hw hwv
        apply hnodup.1
        have h1 := hname a w hw
        have h2 := hname e v hue
        rw [← h1, hwv, h2]
        exact List.mem_map_of_mem _ he'
      cases hua : uf a with
      | none =>
        rw [List.filterMap_cons_none hua]
        exact ih hnodup.2 he'
      | some w =>
        rw [List.filterMap_cons_some hua, List.count_cons]
        have hwv : (w == v) = false := by
          simp only [beq_eq_false_iff_ne, ne_eq]
          exact hne w hua
        rw [hwv]
        simp only [Bool.false_eq_true, if_false, Nat.add_zero]
        exact ih hnodup.2 he'

/-- The scan over an existing project directory is the pair of filterMaps of
the per-entry classification. -/
theorem scan_project_backups_def (formats : List String) (mp : String → Bool)
    (min_file_size_mb : Rat) (pp pid : String) (entries : List DirEntry) :
    scan_project_backups formats mp min_file_size_mb pp pid true true entries
      = (entries.filterMap
           (scanValid formats mp (min_file_size_mb * 1024 * 1024) pp pid),
         entries.filterMap
           (scanUndersized formats mp (min_file_size_mb * 1024 * 1024) pp pid)) := rfl

/-- C8: in a scanned project directory, a pattern-matching file strictly
below the configured minimum size is never in the valid-backup list — even
if its name parses to a timestamp — and appears exactly once in the
undersized list, paired with its megabyte size. -/
theorem undersized_never_valid (formats : List String)
    (matchesPattern : String → Bool) (min_file_size_mb : Rat)
    (project_path project_id : String) (entries : List DirEntry)
    (hnodup : (entries.map DirEntry.name).Nodup)
    (e : DirEntry) (he : e ∈ entries) (hf : e.is_file = true)
    (hm : matchesPattern e.name = true) (sz : Nat) (hs : e.statSize = some sz)
    (hlt : (sz : Rat) < min_file_size_mb * 1024 * 1024) :
    (∀ b ∈ (scan_project_backups formats matchesPattern min_file_size_mb
        project_path project_id true true entries).1, b.filename ≠ e.name)
    ∧ (scan_project_backups formats matchesPattern min_file_size_mb
        project_path project_id true true entries).2.count
          (e.name, (sz : Rat) / (1024 * 1024)) = 1 := by
  rw [scan_project_backups_def]
  constructor
  · intro b hb heq
    obtain ⟨a, ha, hva⟩ := List.mem_filterMap.mp hb
    obtain ⟨hfn, szb, hss, hge⟩ := scanEntry_inl (scanValid_eq_some.mp hva)
    have hae : a = e :=
      List.inj_on_of_nodup_map hnodup ha he (by rw [← hfn, heq])
    rw [hae, hs] at hss
    injection hss with hszb
    rw [hszb] at hlt
    exact hge hlt
  · refine count_filterMap_unique ?_ hnodup he ?_
    · intro a p hp
      obtain ⟨szb, _, _, hup⟩ := scanEntry_inr (scanUndersized_eq_some.mp hp)
      rw [hup]
    · rw [scanUndersized_eq_some]
      exact scanEntry_undersized hf hm hs hlt

/-- Witness for `undersized_never_valid`: a directory with one matching
512-byte file under a 1 MB minimum. -/
theorem undersized_never_valid_witness :
    ((([⟨"tiny.tar.gz", true, some 512⟩] : List DirEntry).map DirEntry.name).Nodup)
    ∧ (∀ b ∈ (scan_project_backups [] (fun _ => true) 1 "/backups/p" "p" true true
        [⟨"tiny.tar.gz", true, some 512⟩]).1, b.filename ≠ "tiny.tar.gz")
    ∧ (scan_project_backups [] (fun _ => true) 1 "/backups/p" "p" true true
        [⟨"tiny.tar.gz", true, some 512⟩]).2.count
          ("tiny.tar.gz", ((512 : Nat) : Rat) / (1024 * 1024)) = 1 := by
  refine ⟨by decide, ?_⟩
  exact undersized_never_valid [] (fun _ => true) 1 "/backups/p" "p"
    [⟨"tiny.tar.gz", true, some 512⟩] (by decide)
    ⟨"tiny.tar.gz", true, some 512⟩ (by decide) (by decide) (by decide) 512
    (by decide) (by norm_num)
